import Mathlib

/-!
Verification of the free-text search and relevance-ranking engine of the
Tuma listings application (src/server/storage.ts, src/server/routes.ts).

Strings are modelled as lists of characters (`Str`), so that the JavaScript
string primitives used by the engine (`toLowerCase`, `includes`,
`startsWith`, `replace(/\s+/g,"")`, `split(/\s+/)`, `trim`) become plain
list functions.  JavaScript `toLowerCase` agrees with `Char.toLower` on the
ASCII data handled by the engine; `\s` is modelled as space, tab, newline
and carriage return.
-/

/-- Character-list model of a JavaScript string. -/
abbrev Str := List Char

/-- Embed a Lean string literal into the model. -/
def str (s : String) : Str := s.data

/-- Model of the JavaScript regex class `\s` (whitespace). -/
def isWsChar (c : Char) : Bool := c = ' ' || c = '\t' || c = '\n' || c = '\r'

/-- Model of `String.prototype.toLowerCase` (ASCII-adequate). -/
def lowerStr (s : Str) : Str := s.map Char.toLower

/-- Model of `s.replace(/\s+/g, "")`: remove every whitespace character. -/
def stripWs (s : Str) : Str := s.filter (fun c => !isWsChar c)

/-- Model of `hay.includes(needle)`: substring containment (`needle` occurs
contiguously inside `hay`; the empty needle always occurs). -/
def includes : Str → Str → Bool
  | [], needle => decide (needle = [])
  | c :: t, needle => needle.isPrefixOf (c :: t) || includes t needle

/-- Model of `s.startsWith(pre)`. -/
def startsWith (s pre : Str) : Bool := pre.isPrefixOf s

/-- Model of `String.prototype.trim`. -/
def jsTrim (s : Str) : Str :=
  ((s.dropWhile isWsChar).reverse.dropWhile isWsChar).reverse

/-- Dropping a prefix never lengthens a list. -/
theorem dropWhile_length_le (p : Char → Bool) (l : List Char) :
    (l.dropWhile p).length ≤ l.length := by
  induction l with
  | nil => simp
  | cons c cs ih =>
      by_cases h : p c
      · simp [List.dropWhile, h]; omega
      · simp [List.dropWhile, h]

/-- Worker for `jsSplitWs`; `acc` holds the characters of the current
fragment in reverse order.  The first argument is recursion fuel (structural
recursion keeps the definition kernel-reducible); with fuel at least the
length of the input the fuel-exhausted clause is never reached, since every
step consumes at least one input character. -/
def splitWsAux : Nat → Str → Str → List Str
  | _, [], acc => [acc.reverse]
  | 0, _ :: _, acc => [acc.reverse]
  | n + 1, c :: cs, acc =>
    if isWsChar c then
      acc.reverse :: splitWsAux n (cs.dropWhile isWsChar) []
    else
      splitWsAux n cs (c :: acc)

/-- Model of `s.split(/\s+/)` with ECMAScript semantics: fragments between
maximal whitespace runs, including an empty fragment when the string starts
or ends with whitespace (and `[""]` for the empty string). -/
def jsSplitWs (s : Str) : List Str := splitWsAux s.length s []

/-- The nonempty whitespace-delimited words of a string (the natural-language
reading of "whitespace-delimited word" in the specification). -/
def wordsOf (s : Str) : List Str := (jsSplitWs s).filter (fun w => !decide (w = []))

/-- JavaScript truthiness of a nullable string: `null` and `""` are falsy. -/
def truthyOpt : Option Str → Bool
  | none => false
  | some s => !decide (s = [])

/-- Embedding of the local `fuzzyMatch` helper of `searchServices` and
`advancedSearch` (src/server/storage.ts lines 163-181 and 331-349):

    if (!serviceValue) return false;
    const serviceValueLower = serviceValue.toLowerCase();
    if (serviceValueLower.includes(searchTerm)) return true;
    if (serviceValueLower.replace(/\s+/g, "").includes(searchTerm.replace(/\s+/g, ""))) return true;
    const words = serviceValueLower.split(/\s+/);
    for (const word of words)
      if (word.startsWith(searchTerm) || searchTerm.startsWith(word)) return true;
    return false;
-/
def fuzzyMatch (serviceValue : Option Str) (searchTerm : Str) : Bool :=
  match serviceValue with
  | none => false
  | some s =>
    if s = [] then false
    else
      let sl := lowerStr s
      if includes sl searchTerm then true
      else if includes (stripWs sl) (stripWs searchTerm) then true
      else (jsSplitWs sl).any (fun w => startsWith w searchTerm || startsWith searchTerm w)

/-- Location alias table of `searchServices` and `advancedSearch`
(src/server/storage.ts lines 110-118 and 257-265; the two copies are
identical). -/
def locationMappingsSimple : List (Str × List Str) :=
  [ (str "tubmanburg", [str "tubman burg", str "tubman-burg", str "tubmanberg", str "tubman berg", str "bomi"])
  , (str "monrovia", [str "monrovia city", str "central monrovia", str "greater monrovia", str "monsterrado", str "montserrado"])
  , (str "bomi", [str "bomi county", str "tubmanburg", str "tubman burg"])
  , (str "montserrado", [str "monsterrado", str "monrovia county"])
  , (str "kakata", [str "kakata city", str "margibi"])
  , (str "margibi", [str "margibi county", str "kakata"])
  , (str "buchanan", [str "buchanan city", str "grand bassa", str "grandbassa"]) ]

/-- Service-type synonym table of `searchServices`
(src/server/storage.ts lines 121-126). -/
def serviceTypeMappingsSimple : List (Str × List Str) :=
  [ (str "room", [str "apartment", str "house", str "flat", str "rent", str "bedroom"])
  , (str "restaurant", [str "food", str "diner", str "eatery", str "cafe", str "cafeteria"])
  , (str "barbershop", [str "barber", str "haircut", str "salon for men"])
  , (str "salon", [str "hair salon", str "beauty salon", str "beauty parlor", str "hairdresser"]) ]

/-- ASCII apostrophe (used inside one lexicon entry). -/
def apos : Char := Char.ofNat 39

/-- Service-type synonym table of `advancedSearch`
(src/server/storage.ts lines 268-273). -/
def serviceTypeMappingsAdv : List (Str × List Str) :=
  [ (str "room", [str "apartment", str "house", str "flat", str "rent", str "bedroom", str "housing"])
  , (str "restaurant", [str "food", str "diner", str "eatery", str "cafe", str "cafeteria", str "dining"])
  , (str "barbershop", [str "barber", str "haircut", str "salon for men", str "men" ++ [apos] ++ str "s salon", str "hair"])
  , (str "salon", [str "hair salon", str "beauty salon", str "beauty parlor", str "hairdresser", str "spa", str "beauty"]) ]

/-- Model of `Set.prototype.add` on a JavaScript `Set<string>` kept as an
insertion-ordered duplicate-free list. -/
def addTerm (acc : List Str) (x : Str) : List Str :=
  if x ∈ acc then acc else acc ++ [x]

/-- One iteration of the term-enhancement loop body of `searchServices` /
`advancedSearch` (src/server/storage.ts lines 134-152 / 281-299): for one
raw token, walk the location table (adding the canonical term on a hit and,
on an exact canonical hit, every whitespace-stripped variant), then walk the
service-type table (adding the canonical term on a hit). -/
def expandOne (locM catM : List (Str × List Str)) (acc : List Str) (term : Str) : List Str :=
  let acc1 := locM.foldl
    (fun a p =>
      if term = p.1 ∨ p.2.any (fun v => includes term v) then
        let a' := addTerm a p.1
        if term = p.1 then p.2.foldl (fun b v => addTerm b (stripWs v)) a' else a'
      else a) acc
  catM.foldl
    (fun a p => if term = p.1 ∨ p.2.any (fun v => includes term v) then addTerm a p.1 else a) acc1

/-- The full enhanced-terms computation: a set seeded with the raw tokens,
then the enhancement loop over every raw token. -/
def expandTerms (locM catM : List (Str × List Str)) (terms : List Str) : List Str :=
  terms.foldl (expandOne locM catM) (terms.foldl addTerm [])

/-- Tokenization of `searchServices`:
`query.toLowerCase().split(/\s+/).filter(term => term.length > 0)`. -/
def tokensOf (q : Str) : List Str :=
  (jsSplitWs (lowerStr q)).filter (fun t => !decide (t = []))

/-- Tokenization of `advancedSearch` (same, with an additional `trim()`). -/
def tokensOfTrim (q : Str) : List Str :=
  (jsSplitWs (jsTrim (lowerStr q))).filter (fun t => !decide (t = []))

/-- The expanded search-term list of `searchServices` for a query. -/
def searchTermsSimpleOf (q : Str) : List Str :=
  expandTerms locationMappingsSimple serviceTypeMappingsSimple (tokensOf q)

/-- The expanded search-term list of `advancedSearch` for a query. -/
def searchTermsAdvOf (q : Str) : List Str :=
  expandTerms locationMappingsSimple serviceTypeMappingsAdv (tokensOfTrim q)

/-- Embedding of a row of the `services` table (src/shared/schema.ts lines
21-40) restricted to the fields the search engine reads.  `available` is the
boolean-as-integer flag (1 on, 0 off); a SQL NULL `viewCount` is modelled as
0 (the column default), which is also how the scoring code treats it. -/
structure Service where
  id : Nat
  name : Str
  serviceType : Str
  county : Str
  city : Str
  community : Str
  description : Option Str
  detailedDescription : Option Str
  tags : Option Str
  features : Option Str
  available : Nat
  viewCount : Nat
  lastUpdated : Option Str
deriving DecidableEq

/-- Stable insertion used to model `Array.prototype.sort`: `p a b` means the
comparator returns a negative number on `(a, b)`, i.e. `a` must come
strictly before `b`.  A later-arriving element is placed after every
existing element it does not strictly precede, which for a comparator
induced by a key is exactly the unique stable order ECMAScript guarantees. -/
def insertPrec (p : α → α → Bool) (x : α) : List α → List α
  | [] => [x]
  | y :: ys => if p x y then x :: y :: ys else y :: insertPrec p x ys

/-- Model of the stable `Array.prototype.sort` with comparator `p`. -/
def jsSortStable (p : α → α → Bool) (l : List α) : List α :=
  l.foldl (fun acc x => insertPrec p x acc) []

/-- The comparator `(a, b) => f(b) - f(a)` (descending by key `f`) returns a
negative number exactly when `f b < f a`. -/
def byScoreDesc [LinearOrder β] (f : α → β) : α → α → Bool :=
  fun a b => decide (f b < f a)

/-- Embedding of the local `getScore` of `searchServices`
(src/server/storage.ts lines 205-228): per-term weighted points, exact
(lowercased equality) beating fuzzy on serviceType 10/5, community 8/4,
city 6/3, county 4/2, plus fuzzy-only name 3 and description 1. -/
def getScoreSimple (searchTerms : List Str) (s : Service) : Int :=
  searchTerms.foldl
    (fun score term =>
      let s1 := if lowerStr s.serviceType = term then score + 10
        else if fuzzyMatch (some s.serviceType) term then score + 5 else score
      let s2 := if lowerStr s.community = term then s1 + 8
        else if fuzzyMatch (some s.community) term then s1 + 4 else s1
      let s3 := if lowerStr s.city = term then s2 + 6
        else if fuzzyMatch (some s.city) term then s2 + 3 else s2
      let s4 := if lowerStr s.county = term then s3 + 4
        else if fuzzyMatch (some s.county) term then s3 + 2 else s3
      let s5 := if fuzzyMatch (some s.name) term then s4 + 3 else s4
      if truthyOpt s.description && fuzzyMatch s.description term then s5 + 1 else s5)
    0

/-- Embedding of the fuzzy filter predicate of `searchServices`
(src/server/storage.ts lines 184-200): with no search terms every record
survives, otherwise some term must fuzzy-match one of the six simple-search
fields. -/
def matchesSimple (searchTerms : List Str) (s : Service) : Bool :=
  decide (searchTerms = []) ||
    searchTerms.any (fun term =>
      let t := lowerStr term
      fuzzyMatch (some s.serviceType) t ||
      fuzzyMatch (some s.community) t ||
      fuzzyMatch (some s.city) t ||
      fuzzyMatch (some s.county) t ||
      fuzzyMatch (some s.name) t ||
      (truthyOpt s.description && fuzzyMatch s.description t))

/-- Embedding of `Storage.searchServices` (src/server/storage.ts lines
108-232) over a snapshot of the `services` table: expand the query, keep the
rows with `available = 1` (the SQL where-clause), keep fuzzy survivors, then
sort with the stable comparator `(a, b) => getScore(b) - getScore(a)`. -/
def searchServices (q : Str) (snap : List Service) : List Service :=
  let ts := searchTermsSimpleOf q
  jsSortStable (byScoreDesc (getScoreSimple ts))
    ((snap.filter (fun s => decide (s.available = 1))).filter (matchesSimple ts))

/-- Embedding of the loosely-typed `filters` object accepted by
`Storage.advancedSearch` (src/server/storage.ts lines 242-251).  A `none`
field models an absent property, for which the destructuring defaults
(`available = true`, `sort = "relevance"`, `page = 1`, `limit = 12`) kick
in. -/
structure Filters where
  county : Option Str := none
  city : Option Str := none
  serviceType : Option Str := none
  available : Option Bool := none
  sort : Option Str := none
  page : Option Int := none
  limit : Option Int := none
deriving DecidableEq

/-- Resolved `available` flag (destructuring default `true`). -/
def advAvailable (f : Filters) : Bool := f.available.getD true

/-- Resolved `sort` mode (destructuring default `"relevance"`). -/
def advSortMode (f : Filters) : Str := f.sort.getD (str "relevance")

/-- Resolved `page` (destructuring default 1). -/
def advPage (f : Filters) : Int := f.page.getD 1

/-- Resolved `limit` (destructuring default 12). -/
def advLimit (f : Filters) : Int := f.limit.getD 12

/-- County filter of `advancedSearch` (`ILIKE '%county%'` when the `county`
filter is truthy, src/server/storage.ts lines 309-312), modelled as
case-insensitive substring containment (SQL pattern metacharacters inside
the filter string are not modelled). -/
def passesCounty (f : Filters) (s : Service) : Bool :=
  match f.county with
  | none => true
  | some c => if c = [] then true else includes (lowerStr s.county) (lowerStr c)

/-- City filter of `advancedSearch` (src/server/storage.ts lines 314-317). -/
def passesCity (f : Filters) (s : Service) : Bool :=
  match f.city with
  | none => true
  | some c => if c = [] then true else includes (lowerStr s.city) (lowerStr c)

/-- Service-type filter of `advancedSearch` (exact SQL equality when truthy,
src/server/storage.ts lines 319-321). -/
def passesType (f : Filters) (s : Service) : Bool :=
  match f.serviceType with
  | none => true
  | some c => if c = [] then true else decide (s.serviceType = c)

/-- Candidate set of `advancedSearch` before text matching
(src/server/storage.ts lines 306-328): the explicit structured filters, with
the `available = 1` constraint added only when the resolved `available` flag
is truthy. -/
def advBase (f : Filters) (snap : List Service) : List Service :=
  snap.filter (fun s =>
    passesCounty f s && passesCity f s && passesType f s &&
      (!advAvailable f || decide (s.available = 1)))

/-- Fuzzy filter predicate of `advancedSearch` over its nine searchable
fields (src/server/storage.ts lines 352-371). -/
def matchesAdv (searchTerms : List Str) (s : Service) : Bool :=
  decide (searchTerms = []) ||
    searchTerms.any (fun term =>
      let t := lowerStr term
      fuzzyMatch (some s.serviceType) t ||
      fuzzyMatch (some s.community) t ||
      fuzzyMatch (some s.city) t ||
      fuzzyMatch (some s.county) t ||
      fuzzyMatch (some s.name) t ||
      fuzzyMatch s.description t ||
      fuzzyMatch s.detailedDescription t ||
      fuzzyMatch s.tags t ||
      fuzzyMatch s.features t)

/-- Embedding of the local `getScore` of `advancedSearch`
(src/server/storage.ts lines 380-423).  Scores are rationals because the
popularity boost `Math.min(viewCount / 10, 5)` uses JavaScript number
division. -/
def getScoreAdv (searchTerms : List Str) (s : Service) : ℚ :=
  let base := searchTerms.foldl
    (fun score term =>
      let s1 := if lowerStr s.serviceType = term then score + 15
        else if fuzzyMatch (some s.serviceType) term then score + 10 else score
      let s2 := if lowerStr s.community = term then s1 + 12
        else if fuzzyMatch (some s.community) term then s1 + 8 else s1
      let s3 := if lowerStr s.city = term then s2 + 10
        else if fuzzyMatch (some s.city) term then s2 + 6 else s2
      let s4 := if lowerStr s.county = term then s3 + 8
        else if fuzzyMatch (some s.county) term then s3 + 4 else s3
      let s5 := if lowerStr s.name = term then s4 + 15
        else if fuzzyMatch (some s.name) term then s4 + 8 else s4
      let s6 := if truthyOpt s.description && fuzzyMatch s.description term then s5 + 5 else s5
      let s7 := if truthyOpt s.detailedDescription && fuzzyMatch s.detailedDescription term then s6 + 6 else s6
      let s8 := if truthyOpt s.tags && fuzzyMatch s.tags term then s7 + 12 else s7
      if truthyOpt s.features && fuzzyMatch s.features term then s8 + 7 else s8)
    0
  let s9 := if s.available = 1 then base + 5 else base
  if s.viewCount ≠ 0 then s9 + min ((s.viewCount : ℚ) / 10) 5 else s9

/-- Code-unit lexicographic strict order on strings, modelling the sign of
`a.localeCompare(b)` for the ASCII ISO timestamps stored in `lastUpdated`. -/
def strLt : Str → Str → Bool
  | [], [] => false
  | [], _ :: _ => true
  | _ :: _, [] => false
  | a :: as, b :: bs => if a < b then true else if b < a then false else strLt as bs

/-- Comparator of the `"newest"` sort branch (src/server/storage.ts lines
429-434): compare `lastUpdated` descending when both rows have a truthy
timestamp, otherwise id descending. -/
def newestPrec (a b : Service) : Bool :=
  if truthyOpt a.lastUpdated && truthyOpt b.lastUpdated then
    strLt (b.lastUpdated.getD []) (a.lastUpdated.getD [])
  else decide (b.id < a.id)

/-- The fully filtered (but not yet sorted) result list of `advancedSearch`. -/
def advFiltered (q : Str) (f : Filters) (snap : List Service) : List Service :=
  (advBase f snap).filter (matchesAdv (searchTermsAdvOf q))

/-- The sorted pre-pagination result list of `advancedSearch`
(src/server/storage.ts lines 373-442): relevance (only with a nonempty term
set), newest, popular, or the unsorted filtered list for any other mode. -/
def advSorted (q : Str) (f : Filters) (snap : List Service) : List Service :=
  let ts := searchTermsAdvOf q
  let filtered := advFiltered q f snap
  if advSortMode f = str "relevance" ∧ ts ≠ [] then
    jsSortStable (byScoreDesc (getScoreAdv ts)) filtered
  else if advSortMode f = str "newest" then
    jsSortStable newestPrec filtered
  else if advSortMode f = str "popular" then
    jsSortStable (byScoreDesc (fun s => s.viewCount)) filtered
  else filtered

/-- Clamp one `Array.prototype.slice` index to `[0, len]` (negative indices
count from the end). -/
def jsIndex (len : Nat) (i : Int) : Nat :=
  if i < 0 then ((len : Int) + i).toNat else min i.toNat len

/-- Model of `l.slice(a, b)`. -/
def jsSlice (l : List α) (a b : Int) : List α :=
  let k := jsIndex l.length a
  let e := jsIndex l.length b
  (l.drop k).take (e - k)

/-- Model of `Math.ceil(total / limit)` for the pagination metadata (exact
for the positive limits the route layer produces; a non-positive limit is
mapped to 0 pages). -/
def advTotalPages (total : Nat) (limit : Int) : Nat :=
  if limit ≤ 0 then 0 else (total + limit.toNat - 1) / limit.toNat

/-- Result shape of `advancedSearch`. -/
structure AdvResult where
  results : List Service
  total : Nat
  page : Int
  totalPages : Nat
deriving DecidableEq

/-- Embedding of `Storage.advancedSearch` (src/server/storage.ts lines
242-454) over a snapshot of the `services` table. -/
def advancedSearch (q : Str) (f : Filters) (snap : List Service) : AdvResult :=
  let sorted := advSorted q f snap
  let page := advPage f
  let limit := advLimit f
  let startIndex := (page - 1) * limit
  { results := jsSlice sorted startIndex (startIndex + limit)
  , total := sorted.length
  , page := page
  , totalPages := advTotalPages sorted.length limit }

/-- Matcher for the regex fragment `b[ue]r[g|gh]` (the character class
`[g|gh]` literally accepts one of `g`, `|`, `h`): on success, return the
remainder of the input after the matched characters. -/
def tubTail : Str → Option Str
  | 'b' :: c1 :: 'r' :: c2 :: rest =>
    if (c1 = 'u' || c1 = 'e') && (c2 = 'g' || c2 = '|' || c2 = 'h') then some rest else none
  | _ => none

/-- Matcher for `/tubman[\s-]?b[ue]r[g|gh]/` anchored at the head of the
input (with greedy-then-backtrack handling of the optional separator). -/
def tubAt (s : Str) : Option Str :=
  if (str "tubman").isPrefixOf s then
    match s.drop 6 with
    | c :: rest =>
      if isWsChar c || c = '-' then
        match tubTail rest with
        | some r => some r
        | none => tubTail (c :: rest)
      else tubTail (c :: rest)
    | [] => none
  else none

/-- Model of `normalizedQuery.replace(/tubman[\s-]?b[ue]r[g|gh]/, "tubmanburg")`:
replace the leftmost match, if any. -/
def replaceTubman : Str → Str
  | [] => []
  | c :: cs =>
    match tubAt (c :: cs) with
    | some rest => str "tubmanburg" ++ rest
    | none => c :: replaceTubman cs

/-- Embedding of the Tubmanburg special case of the `GET /api/search`
handler (src/server/routes.ts lines 248-257): lowercase the query and, when
it contains "tubman" together with "burg", "berg" or "bourg", run the
regex replacement. -/
def routeCollapseTubman (q : Str) : Str :=
  let n := lowerStr q
  if includes n (str "tubman") &&
      (includes n (str "burg") || includes n (str "berg") || includes n (str "bourg")) then
    replaceTubman n
  else n

/-- Digit test for `parseInt` (radix 10). -/
def jsDigit (c : Char) : Bool := '0' ≤ c && c ≤ '9'

/-- Numeric value of a digit string. -/
def digitsVal (l : Str) : Nat := l.foldl (fun n c => n * 10 + (c.toNat - '0'.toNat)) 0

/-- Model of `parseInt(s)` in radix 10: skip leading whitespace, accept an
optional sign, then read the maximal leading digit run; `none` models `NaN`
(no leading digits).  The rarely-used hexadecimal `0x` prefix is not
modelled; it never produces `NaN`, so the `NaN`-defaulting behaviour under
test is unaffected. -/
def jsParseInt (s : Str) : Option Int :=
  let t := s.dropWhile isWsChar
  match t with
  | '-' :: rest =>
    let ds := rest.takeWhile jsDigit
    if ds = [] then none else some (-(digitsVal ds : Int))
  | '+' :: rest =>
    let ds := rest.takeWhile jsDigit
    if ds = [] then none else some (digitsVal ds : Int)
  | rest =>
    let ds := rest.takeWhile jsDigit
    if ds = [] then none else some (digitsVal ds : Int)

/-- Raw query parameters of `GET /api/search/advanced` (a `none` models an
absent parameter). -/
structure AdvParams where
  county : Option Str := none
  city : Option Str := none
  serviceType : Option Str := none
  available : Option Str := none
  sort : Option Str := none
  page : Option Str := none
  limit : Option Str := none
deriving DecidableEq

/-- JavaScript truthiness guard `if (x && typeof x === "string")` on an
optional string parameter. -/
def optTruthy (o : Option Str) : Option Str :=
  match o with
  | some s => if s = [] then none else some s
  | none => none

/-- Model of `parseInt(x) || d`: `NaN` and `0` fall back to the default. -/
def routeParseIntOr (dflt : Int) (s : Str) : Int :=
  match jsParseInt s with
  | some n => if n = 0 then dflt else n
  | none => dflt

/-- Embedding of the filter-building block of the `GET /api/search/advanced`
handler (src/server/routes.ts lines 534-543). -/
def routeAdvancedFilters (p : AdvParams) : Filters :=
  { county := optTruthy p.county
  , city := optTruthy p.city
  , serviceType := optTruthy p.serviceType
  , available := p.available.map (fun s => decide (s = str "true"))
  , sort := optTruthy p.sort
  , page := (optTruthy p.page).map (routeParseIntOr 1)
  , limit := (optTruthy p.limit).map (routeParseIntOr 12) }

/-- Specification-side Scorer (spec.md §4.4, first half of the C1 claim):
per-field points for one term, where a field with both weights contributes
its exact weight on case-insensitive equality, else its fuzzy weight on a
fuzzy match, else 0. -/
def pointsEF (ex fz : ℚ) (v t : Str) : ℚ :=
  if lowerStr v = lowerStr t then ex else if fuzzyMatch (some v) t then fz else 0

/-- Specification-side points for a fuzzy-only field. -/
def pointsF (fz : ℚ) (v : Option Str) (t : Str) : ℚ :=
  if fuzzyMatch v t then fz else 0

/-- Specification-side per-term score of one record (spec.md §4.4 weight
table). -/
def specTermPoints (s : Service) (t : Str) : ℚ :=
  pointsEF 15 10 s.serviceType t + pointsEF 12 8 s.community t +
  pointsEF 10 6 s.city t + pointsEF 8 4 s.county t + pointsEF 15 8 s.name t +
  pointsF 5 s.description t + pointsF 6 s.detailedDescription t +
  pointsF 12 s.tags t + pointsF 7 s.features t

/-- Specification-side relevance score (spec.md §4.4): sum over all terms of
the per-field points, plus once per record a flat +5 when available and the
popularity boost `min(viewCount / 10, 5)`. -/
def specScore (s : Service) (terms : List Str) : ℚ :=
  (terms.map (specTermPoints s)).sum +
    (if s.available = 1 then 5 else 0) + min ((s.viewCount : ℚ) / 10) 5

/-- Specification-side fuzzy matcher exactly as the C3 claim states it: the
word-boundary clause ranges over the (nonempty) whitespace-delimited words
of the lowercased field value. -/
def specFuzzyClaim (v : Option Str) (t : Str) : Bool :=
  match v with
  | none => false
  | some s =>
    !decide (s = []) &&
      (includes (lowerStr s) t ||
       includes (stripWs (lowerStr s)) (stripWs t) ||
       (wordsOf (lowerStr s)).any (fun w => startsWith w t || startsWith t w))

/-- The C3 claim amended: same matcher, but the word-boundary clause ranges
over all fragments produced by splitting on whitespace runs, including the
empty fragment present when the field value starts or ends with whitespace
(an empty fragment is a prefix of every term, so such a value matches every
term). -/
def specFuzzyAmended (v : Option Str) (t : Str) : Bool :=
  match v with
  | none => false
  | some s =>
    !decide (s = []) &&
      (includes (lowerStr s) t ||
       includes (stripWs (lowerStr s)) (stripWs t) ||
       (jsSplitWs (lowerStr s)).any (fun w => startsWith w t || startsWith t w))

/-- Membership in a stable insertion. -/
theorem mem_insertPrec (p : α → α → Bool) (x a : α) :
    ∀ l : List α, a ∈ insertPrec p x l ↔ a = x ∨ a ∈ l := by
  intro l
  induction l with
  | nil => simp [insertPrec]
  | cons y ys ih =>
      by_cases h : p x y
      · simp [insertPrec, h]
      · simp [insertPrec, h, ih]
        tauto

/-- A stable insertion is a permutation of consing. -/
theorem insertPrec_perm (p : α → α → Bool) (x : α) :
    ∀ l : List α, (insertPrec p x l).Perm (x :: l) := by
  intro l
  induction l with
  | nil => simp [insertPrec]
  | cons y ys ih =>
      by_cases h : p x y
      · simp [insertPrec, h]
      · simp only [insertPrec, h, if_neg, Bool.false_eq_true, not_false_iff, ite_false]
        exact (ih.cons y).trans (List.Perm.swap x y ys)

/-- The modelled JavaScript sort permutes its input. -/
theorem jsSortStable_perm (p : α → α → Bool) (l : List α) :
    (jsSortStable p l).Perm l := by
  suffices h : ∀ (l acc : List α), (l.foldl (fun acc x => insertPrec p x acc) acc).Perm (acc ++ l) by
    simpa using h l []
  intro l
  induction l with
  | nil => simp
  | cons x xs ih =>
      intro acc
      have h1 := ih (insertPrec p x acc)
      have h2 : (insertPrec p x acc ++ xs).Perm ((x :: acc) ++ xs) :=
        (insertPrec_perm p x acc).append_right xs
      have h3 : ((x :: acc) ++ xs : List α).Perm (acc ++ x :: xs) := by
        simpa using List.perm_middle.symm
      exact (h1.trans h2).trans h3

/-- Descending-by-key order is preserved by stable insertion. -/
theorem pairwise_insertPrec [LinearOrder β] (f : α → β) (x : α) :
    ∀ l : List α, l.Pairwise (fun a b => f b ≤ f a) →
      (insertPrec (byScoreDesc f) x l).Pairwise (fun a b => f b ≤ f a) := by
  intro l
  induction l with
  | nil => intro _; simp [insertPrec]
  | cons y ys ih =>
      intro h
      rw [List.pairwise_cons] at h
      obtain ⟨hy, hys⟩ := h
      by_cases hxy : f y < f x
      · have hc : byScoreDesc f x y = true := by simp [byScoreDesc, hxy]
        simp only [insertPrec, hc, if_pos]
        rw [List.pairwise_cons]
        constructor
        · intro z hz
          rcases List.mem_cons.mp hz with rfl | hz'
          · exact le_of_lt hxy
          · exact le_trans (hy z hz') (le_of_lt hxy)
        · exact List.pairwise_cons.mpr ⟨hy, hys⟩
      · have hc : byScoreDesc f x y = false := by simp [byScoreDesc, hxy]
        simp only [insertPrec, hc, Bool.false_eq_true, if_neg, not_false_iff, ite_false]
        rw [List.pairwise_cons]
        refine ⟨?_, ih hys⟩
        intro z hz
        rcases (mem_insertPrec (byScoreDesc f) x z ys).mp hz with rfl | hz'
        · exact not_lt.mp hxy
        · exact hy z hz'

/-- The modelled JavaScript sort with a descending-by-key comparator yields
a list sorted descending by that key. -/
theorem pairwise_jsSortStable [LinearOrder β] (f : α → β) (l : List α) :
    (jsSortStable (byScoreDesc f) l).Pairwise (fun a b => f b ≤ f a) := by
  suffices h : ∀ (l acc : List α), acc.Pairwise (fun a b => f b ≤ f a) →
      (l.foldl (fun acc x => insertPrec (byScoreDesc f) x acc) acc).Pairwise
        (fun a b => f b ≤ f a) by
    exact h l [] (by simp)
  intro l
  induction l with
  | nil => intro acc h; simpa using h
  | cons x xs ih => intro acc h; exact ih _ (pairwise_insertPrec f x acc h)

/-- Inserting into a descending-sorted list appends the new element to the
equal-key fragment of any key class: earlier elements of the same key stay
in front of the newcomer (stability). -/
theorem filter_insertPrec [LinearOrder β] (f : α → β) (x : α) (sc : β) :
    ∀ l : List α, l.Pairwise (fun a b => f b ≤ f a) →
      (insertPrec (byScoreDesc f) x l).filter (fun z => decide (f z = sc)) =
        l.filter (fun z => decide (f z = sc)) ++ if f x = sc then [x] else [] := by
  intro l
  induction l with
  | nil =>
      intro _
      by_cases hx : f x = sc <;> simp [insertPrec, hx]
  | cons y ys ih =>
      intro h
      rw [List.pairwise_cons] at h
      obtain ⟨hy, hys⟩ := h
      by_cases hxy : f y < f x
      · have hc : byScoreDesc f x y = true := by simp [byScoreDesc, hxy]
        simp only [insertPrec, hc, if_pos]
        by_cases hx : f x = sc
        · have hnone : ∀ z ∈ y :: ys, f z ≠ sc := by
            intro z hz hzs
            have hzy : f z ≤ f y := by
              rcases List.mem_cons.mp hz with rfl | hz'
              · exact le_refl _
              · exact hy z hz'
            have hlt : f z < f x := lt_of_le_of_lt hzy hxy
            rw [hzs, hx] at hlt
            exact lt_irrefl sc hlt
          have hfe : (y :: ys).filter (fun z => decide (f z = sc)) = [] := by
            rw [List.filter_eq_nil_iff]
            intro z hz
            simpa using hnone z hz
          rw [List.filter_cons_of_pos (by simpa using hx), hfe, if_pos hx]
          simp
        · rw [List.filter_cons_of_neg (by simpa using hx), if_neg hx]
          simp
      · have hc : byScoreDesc f x y = false := by simp [byScoreDesc, hxy]
        simp only [insertPrec, hc, Bool.false_eq_true, if_neg, not_false_iff, ite_false]
        by_cases hysc : f y = sc
        · simp [List.filter, hysc, ih hys]
        · simp [List.filter, hysc, ih hys]

/-- Stability of the modelled JavaScript sort: within any single key class
the sorted output lists exactly the input elements in input order. -/
theorem filter_jsSortStable [LinearOrder β] (f : α → β) (sc : β) (l : List α) :
    (jsSortStable (byScoreDesc f) l).filter (fun z => decide (f z = sc)) =
      l.filter (fun z => decide (f z = sc)) := by
  suffices h : ∀ (l acc : List α), acc.Pairwise (fun a b => f b ≤ f a) →
      (l.foldl (fun acc x => insertPrec (byScoreDesc f) x acc) acc).filter
          (fun z => decide (f z = sc)) =
        acc.filter (fun z => decide (f z = sc)) ++ l.filter (fun z => decide (f z = sc)) by
    simpa using h l [] (by simp)
  intro l
  induction l with
  | nil => intro acc _; simp
  | cons x xs ih =>
      intro acc hacc
      have hstep := ih (insertPrec (byScoreDesc f) x acc) (pairwise_insertPrec f x acc hacc)
      simp only [List.foldl_cons] at *
      rw [hstep, filter_insertPrec f x sc acc hacc]
      by_cases hx : f x = sc
      · simp [List.filter, hx]
      · simp [List.filter, hx]

/-- An accumulator step that adds an element-determined amount turns a fold
into a sum. -/
theorem foldl_step_sum_mem {γ : Type} (F : ℚ → γ → ℚ) (g : γ → ℚ) :
    ∀ l : List γ, (∀ x ∈ l, ∀ s : ℚ, F s x = s + g x) →
      ∀ a : ℚ, l.foldl F a = a + (l.map g).sum := by
  intro l
  induction l with
  | nil => intro _ a; simp
  | cons x xs ih =>
      intro hF a
      rw [List.foldl_cons, hF x (List.mem_cons_self x xs) a,
        ih (fun y hy s => hF y (List.mem_cons_of_mem x hy) s)]
      simp [add_assoc]

/-- Distribute an accumulator out of a two-way weighted conditional. -/
theorem ite_add_shift (A B : Prop) [Decidable A] [Decidable B] (s k j : ℚ) :
    (if A then s + k else if B then s + j else s) =
      s + (if A then k else if B then j else 0) := by
  split_ifs <;> ring

/-- Distribute an accumulator out of a one-way weighted conditional. -/
theorem ite_add_shift1 (A : Prop) [Decidable A] (s k : ℚ) :
    (if A then s + k else s) = s + (if A then k else 0) := by
  split_ifs <;> ring

/-- The guard `if (viewCount)` around the popularity boost is redundant: at
`viewCount = 0` the boost itself is 0. -/
theorem boost_view_eq (n : Nat) (x : ℚ) :
    (if n ≠ 0 then x + min ((n : ℚ) / 10) 5 else x) = x + min ((n : ℚ) / 10) 5 := by
  by_cases h : n = 0
  · subst h
    simp [min_def]
  · simp [h]

/-- The JavaScript truthiness guard in `x && fuzzyMatch(x, t)` is redundant:
`fuzzyMatch` already rejects null and empty field values. -/
theorem truthy_and_fuzzy (v : Option Str) (t : Str) :
    (truthyOpt v && fuzzyMatch v t) = fuzzyMatch v t := by
  cases v with
  | none => rfl
  | some s =>
      by_cases h : s = []
      · subst h; simp [truthyOpt, fuzzyMatch]
      · simp [truthyOpt, h]

/-- C1: for every listing record and every expanded term set (expanded term
sets consist of lowercase tokens), the relevance score computed by
`advancedSearch` under `sort = "relevance"` equals the specification Scorer:
the sum over all terms of the per-field points of the §4.4 weight table
(exact beating fuzzy: serviceType 15/10, community 12/8, city 10/6,
county 8/4, name 15/8; fuzzy-only description 5, detailedDescription 6,
tags 12, features 7), plus once per record a flat +5 when available and the
popularity boost `min(viewCount / 10, 5)`. -/
theorem advancedSearch_relevance_score_eq_spec (s : Service) (ts : List Str)
    (h : ∀ t ∈ ts, lowerStr t = t) :
    getScoreAdv ts s = specScore s ts := by
  have hstep : ∀ t ∈ ts, ∀ sc : ℚ,
      (let s1 := if lowerStr s.serviceType = t then sc + 15
        else if fuzzyMatch (some s.serviceType) t then sc + 10 else sc
       let s2 := if lowerStr s.community = t then s1 + 12
        else if fuzzyMatch (some s.community) t then s1 + 8 else s1
       let s3 := if lowerStr s.city = t then s2 + 10
        else if fuzzyMatch (some s.city) t then s2 + 6 else s2
       let s4 := if lowerStr s.county = t then s3 + 8
        else if fuzzyMatch (some s.county) t then s3 + 4 else s3
       let s5 := if lowerStr s.name = t then s4 + 15
        else if fuzzyMatch (some s.name) t then s4 + 8 else s4
       let s6 := if truthyOpt s.description && fuzzyMatch s.description t then s5 + 5 else s5
       let s7 := if truthyOpt s.detailedDescription && fuzzyMatch s.detailedDescription t then s6 + 6 else s6
       let s8 := if truthyOpt s.tags && fuzzyMatch s.tags t then s7 + 12 else s7
       if truthyOpt s.features && fuzzyMatch s.features t then s8 + 7 else s8) =
        sc + specTermPoints s t := by
    intro t ht sc
    have hlt : lowerStr t = t := h t ht
    simp only [ite_add_shift]
    simp only [ite_add_shift1]
    simp only [truthy_and_fuzzy]
    simp only [specTermPoints, pointsEF, pointsF, hlt]
    ring
  unfold getScoreAdv
  rw [foldl_step_sum_mem _ (specTermPoints s) ts hstep 0]
  unfold specScore
  rw [boost_view_eq, ite_add_shift1]
  ring

/-- Witness for C1 at a concrete record and expanded term set. -/
theorem advancedSearch_relevance_score_eq_spec_witness :
    (∀ t ∈ [str "room"], lowerStr t = t) ∧
      getScoreAdv [str "room"]
          { id := 2, name := str "Room One", serviceType := str "Room",
            county := str "Bomi", city := str "Tubmanburg", community := str "Center",
            description := none, detailedDescription := none, tags := none,
            features := none, available := 1, viewCount := 50, lastUpdated := none } =
        specScore
          { id := 2, name := str "Room One", serviceType := str "Room",
            county := str "Bomi", city := str "Tubmanburg", community := str "Center",
            description := none, detailedDescription := none, tags := none,
            features := none, available := 1, viewCount := 50, lastUpdated := none }
          [str "room"] :=
  ⟨by decide, advancedSearch_relevance_score_eq_spec _ _ (by decide)⟩

/-- First record of the C2 counterexample snapshot. -/
def svcC2a : Service :=
  { id := 1, name := str "Room One", serviceType := str "Room",
    county := str "Bomi", city := str "Tubmanburg", community := str "Center",
    description := none, detailedDescription := none, tags := none,
    features := none, available := 1, viewCount := 0, lastUpdated := none }

/-- Second record of the C2 counterexample snapshot: same fields except a
later id and a `tags` value — `tags` is scored by the §4.4 relevance score
(fuzzy weight 12) but not by the scorer `searchServices` actually uses. -/
def svcC2b : Service := { svcC2a with id := 2, tags := some (str "room luxury") }

/-- C2 counterexample: on the snapshot `[svcC2a, svcC2b]` and query "room",
`searchServices` returns the two records in snapshot order.  Their §4.4
scores differ (the second is strictly higher, so the output is not sorted by
the §4.4 score descending), while the scores actually computed by
`searchServices` are equal and the output lists the tied records in
ascending — not descending — id order. -/
theorem searchServices_order_counterexample :
    searchServices (str "room") [svcC2a, svcC2b] = [svcC2a, svcC2b] ∧
    getScoreSimple (searchTermsSimpleOf (str "room")) svcC2a =
      getScoreSimple (searchTermsSimpleOf (str "room")) svcC2b ∧
    specScore svcC2b (searchTermsSimpleOf (str "room")) >
      specScore svcC2a (searchTermsSimpleOf (str "room")) ∧
    svcC2a.id < svcC2b.id := by
  refine ⟨by decide, by decide, ?_, by decide⟩
  have hts : searchTermsSimpleOf (str "room") = [str "room"] := by decide
  rw [hts]
  simp +decide [specScore, specTermPoints, pointsEF, pointsF, svcC2a, svcC2b]

/-- C2 amended: `searchServices` returns the surviving available records
sorted descending by its own scorer (weights serviceType 10/5, community
8/4, city 6/3, county 4/2, name fuzzy 3, description fuzzy 1, no boosts),
and equal-score records keep their relative snapshot order (stable sort)
rather than being reordered by id. -/
theorem searchServices_sorted_stable (q : Str) (snap : List Service) :
    (searchServices q snap).Pairwise
        (fun a b => getScoreSimple (searchTermsSimpleOf q) b ≤
          getScoreSimple (searchTermsSimpleOf q) a)
    ∧ (searchServices q snap).Perm
        ((snap.filter (fun s => decide (s.available = 1))).filter
          (matchesSimple (searchTermsSimpleOf q)))
    ∧ ∀ sc : Int,
        (searchServices q snap).filter
            (fun x => decide (getScoreSimple (searchTermsSimpleOf q) x = sc)) =
          ((snap.filter (fun s => decide (s.available = 1))).filter
              (matchesSimple (searchTermsSimpleOf q))).filter
            (fun x => decide (getScoreSimple (searchTermsSimpleOf q) x = sc)) := by
  refine ⟨?_, ?_, ?_⟩
  · exact pairwise_jsSortStable (getScoreSimple (searchTermsSimpleOf q)) _
  · exact jsSortStable_perm _ _
  · intro sc
    exact filter_jsSortStable (getScoreSimple (searchTermsSimpleOf q)) sc _

/-- C3 counterexample: a field value with leading whitespace fuzzy-matches a
term sharing no characters with it, because splitting "` x`" on whitespace
yields an empty fragment and every term starts with the empty string; the
claim (whose word-boundary clause ranges over nonempty words) says this must
not match. -/
theorem fuzzyMatch_whitespace_counterexample :
    fuzzyMatch (some (str " x")) (str "zzz") = true ∧
    specFuzzyClaim (some (str " x")) (str "zzz") = false := by
  refine ⟨by decide, by decide⟩

/-- C3 amended: the fuzzy matcher rejects null/empty field values and
otherwise matches exactly when the lowercased value contains the term, or
the whitespace-stripped lowercased value contains the whitespace-stripped
term, or some fragment of the whitespace split — including the empty
fragment present when the value starts or ends with whitespace — starts
with the term or is a prefix of the term. -/
theorem fuzzyMatch_eq_specFuzzyAmended (v : Option Str) (t : Str) :
    fuzzyMatch v t = specFuzzyAmended v t := by
  cases v with
  | none => rfl
  | some s =>
      by_cases h : s = []
      · subst h
        simp [fuzzyMatch, specFuzzyAmended]
      · cases h1 : includes (lowerStr s) t <;>
          cases h2 : includes (stripWs (lowerStr s)) (stripWs t) <;>
            simp [fuzzyMatch, specFuzzyAmended, h, h1, h2]

/-- C6: the simple search returns only available records — a record with
`available = 0` never appears in its output, for any query and snapshot. -/
theorem searchServices_only_available (q : Str) (snap : List Service) (r : Service)
    (hr : r ∈ searchServices q snap) : r.available = 1 := by
  have h1 : r ∈ (snap.filter (fun s => decide (s.available = 1))).filter
      (matchesSimple (searchTermsSimpleOf q)) :=
    (jsSortStable_perm _ _).mem_iff.mp hr
  have h2 := (List.mem_filter.mp h1).1
  exact of_decide_eq_true (List.mem_filter.mp h2).2

/-- Witness for C6 at a concrete snapshot. -/
theorem searchServices_only_available_witness :
    svcC2a ∈ searchServices (str "room") [svcC2a] ∧ svcC2a.available = 1 :=
  ⟨by decide, searchServices_only_available (str "room") [svcC2a] svcC2a (by decide)⟩

/-- C9: the simple search is a pure function of the query and the snapshot,
so two invocations against the same snapshot return element-for-element
identical sequences. -/
theorem searchServices_deterministic (q : Str) (snap : List Service)
    (r1 r2 : List Service) (h1 : r1 = searchServices q snap)
    (h2 : r2 = searchServices q snap) : r1 = r2 := by
  rw [h1, h2]

/-- Witness for C9 at a concrete query and snapshot. -/
theorem searchServices_deterministic_witness :
    searchServices (str "room") [svcC2b] = searchServices (str "room") [svcC2b] :=
  searchServices_deterministic (str "room") [svcC2b] _ _ rfl rfl

/-- Adding to the term set keeps existing members. -/
theorem mem_addTerm (l : List Str) (x y : Str) (h : y ∈ l) : y ∈ addTerm l x := by
  unfold addTerm
  split
  · exact h
  · exact List.mem_append_left _ h

/-- The added term is a member of the extended term set. -/
theorem mem_addTerm_self (l : List Str) (x : Str) : x ∈ addTerm l x := by
  unfold addTerm
  split
  · assumption
  · simp

/-- A fold whose step preserves membership preserves membership. -/
theorem mem_foldl_preserve {γ : Type} (step : List Str → γ → List Str)
    (hstep : ∀ a c x, x ∈ a → x ∈ step a c) :
    ∀ (l : List γ) (acc : List Str) (x : Str), x ∈ acc → x ∈ l.foldl step acc := by
  intro l
  induction l with
  | nil => intro acc x h; simpa using h
  | cons c cs ih => intro acc x h; exact ih _ _ (hstep acc c x h)

/-- A fold whose step preserves membership and whose step at some list
element always inserts `x` produces a result containing `x`. -/
theorem mem_foldl_adds {γ : Type} (step : List Str → γ → List Str)
    (hstep : ∀ a c x, x ∈ a → x ∈ step a c) (e : γ) (x : Str)
    (hx : ∀ a, x ∈ step a e) :
    ∀ l : List γ, e ∈ l → ∀ acc : List Str, x ∈ l.foldl step acc := by
  intro l
  induction l with
  | nil => intro he; cases he
  | cons d ds ih =>
      intro he acc
      rcases List.mem_cons.mp he with rfl | hd
      · exact mem_foldl_preserve step hstep ds _ x (hx acc)
      · exact ih hd _

/-- The location-table step of the enhancement loop preserves membership. -/
theorem locStep_preserves (term : Str) :
    ∀ (a : List Str) (p : Str × List Str) (x : Str), x ∈ a →
      x ∈ (if term = p.1 ∨ p.2.any (fun v => includes term v) then
            let a' := addTerm a p.1
            if term = p.1 then p.2.foldl (fun b v => addTerm b (stripWs v)) a' else a'
          else a) := by
  intro a p x hx
  split
  · split
    · exact mem_foldl_preserve _ (fun b v y hy => mem_addTerm _ _ _ hy) _ _ _
        (mem_addTerm _ _ _ hx)
    · exact mem_addTerm _ _ _ hx
  · exact hx

/-- The service-type-table step of the enhancement loop preserves
membership. -/
theorem catStep_preserves (term : Str) :
    ∀ (a : List Str) (p : Str × List Str) (x : Str), x ∈ a →
      x ∈ (if term = p.1 ∨ p.2.any (fun v => includes term v) then addTerm a p.1 else a) := by
  intro a p x hx
  split
  · exact mem_addTerm _ _ _ hx
  · exact hx

/-- The enhancement loop body preserves membership. -/
theorem expandOne_preserves (locM catM : List (Str × List Str)) :
    ∀ (acc : List Str) (term : Str) (x : Str), x ∈ acc →
      x ∈ expandOne locM catM acc term := by
  intro acc term x hx
  unfold expandOne
  exact mem_foldl_preserve _ (catStep_preserves term) catM _ x
    (mem_foldl_preserve _ (locStep_preserves term) locM acc x hx)

/-- When one raw token triggers a lexicon entry (it equals the canonical
term or contains one of its variants), the enhancement loop body adds that
canonical term. -/
theorem expandOne_adds (locM catM : List (Str × List Str)) (token c : Str)
    (vs : List Str) (hentry : (c, vs) ∈ locM ∨ (c, vs) ∈ catM)
    (hcond : token = c ∨ vs.any (fun v => includes token v) = true) :
    ∀ acc : List Str, c ∈ expandOne locM catM acc token := by
  intro acc
  unfold expandOne
  rcases hentry with hloc | hcat
  · refine mem_foldl_preserve _ (catStep_preserves token) catM _ c ?_
    refine mem_foldl_adds _ (locStep_preserves token) (c, vs) c ?_ locM hloc acc
    intro a
    have hc : token = (c, vs).1 ∨ (c, vs).2.any (fun v => includes token v) := by
      simpa using hcond
    rw [if_pos hc]
    split
    · exact mem_foldl_preserve _ (fun b v y hy => mem_addTerm _ _ _ hy) _ _ _
        (mem_addTerm_self a c)
    · exact mem_addTerm_self a c
  · refine mem_foldl_adds _ (catStep_preserves token) (c, vs) c ?_ catM hcat _
    intro a
    have hc : token = (c, vs).1 ∨ (c, vs).2.any (fun v => includes token v) := by
      simpa using hcond
    rw [if_pos hc]
    exact mem_addTerm_self a c

/-- C4 counterexample: the raw token "tubman" is contained by the variant
"tubman burg" of the canonical location term "tubmanburg", yet the expansion
of the query "tubman" does not contain "tubmanburg" — the code only tests
whether the token contains a variant, never whether a variant contains the
token. -/
theorem expansion_containment_counterexample :
    (str "tubman") ∈ tokensOf (str "tubman") ∧
    (str "tubmanburg",
        [str "tubman burg", str "tubman-burg", str "tubmanberg",
          str "tubman berg", str "bomi"]) ∈ locationMappingsSimple ∧
    includes (str "tubman burg") (str "tubman") = true ∧
    (str "tubmanburg") ∉ searchTermsSimpleOf (str "tubman") := by
  refine ⟨by decide, by decide, by decide, by decide⟩

/-- C4 amended: for every raw token and each lexicon, query expansion adds
the canonical term whenever the token equals the canonical term or the
token contains one of that canonical term's variants (the converse
containment — token inside a variant — does not trigger the addition). -/
theorem expansion_adds_canonical (locM catM : List (Str × List Str))
    (terms : List Str) (token : Str) (htok : token ∈ terms) (c : Str)
    (vs : List Str) (hentry : (c, vs) ∈ locM ∨ (c, vs) ∈ catM)
    (hcond : token = c ∨ ∃ v ∈ vs, includes token v = true) :
    c ∈ expandTerms locM catM terms := by
  unfold expandTerms
  have hcond' : token = c ∨ vs.any (fun v => includes token v) = true := by
    rcases hcond with h | ⟨v, hv, hiv⟩
    · exact Or.inl h
    · exact Or.inr (List.any_eq_true.mpr ⟨v, hv, hiv⟩)
  exact mem_foldl_adds (expandOne locM catM) (expandOne_preserves locM catM)
    token c (fun acc => expandOne_adds locM catM token c vs hentry hcond' acc)
    terms htok _

/-- Witness for C4 at the token "food" and the canonical service type
"restaurant" of the simple-search lexicon. -/
theorem expansion_adds_canonical_witness :
    ((str "food") ∈ tokensOf (str "food") ∧
      ((str "restaurant",
          [str "food", str "diner", str "eatery", str "cafe", str "cafeteria"])
            ∈ serviceTypeMappingsSimple) ∧
      (∃ v ∈ [str "food", str "diner", str "eatery", str "cafe", str "cafeteria"],
        includes (str "food") v = true)) ∧
    (str "restaurant") ∈ expandTerms locationMappingsSimple serviceTypeMappingsSimple
      (tokensOf (str "food")) :=
  ⟨⟨by decide, by decide, by decide⟩,
    expansion_adds_canonical locationMappingsSimple serviceTypeMappingsSimple
      (tokensOf (str "food")) (str "food") (by decide) (str "restaurant")
      [str "food", str "diner", str "eatery", str "cafe", str "cafeteria"]
      (Or.inr (by decide)) (Or.inr (by decide))⟩

/-- C5: the query "tubman bourg" passes the handler's guard (it contains
"tubman" and "bourg"), yet the replacement leaves it unchanged — the regex
fragment `b[ue]r[g|gh]` cannot match "bourg" — so the phrase is not
collapsed to the single token "tubmanburg"; by contrast "tubman burg" is
collapsed. -/
theorem tubman_bourg_not_collapsed :
    includes (lowerStr (str "tubman bourg")) (str "tubman") = true ∧
    includes (lowerStr (str "tubman bourg")) (str "bourg") = true ∧
    routeCollapseTubman (str "tubman bourg") = str "tubman bourg" ∧
    (str "tubmanburg") ∉ tokensOf (routeCollapseTubman (str "tubman bourg")) ∧
    routeCollapseTubman (str "tubman burg") = str "tubmanburg" := by
  refine ⟨by decide, by decide, by decide, by decide, by decide⟩

/-- Concatenating ceil(length/k) consecutive k-blocks of a list rebuilds the
list. -/
theorem pages_reconstruct {α : Type} (k : Nat) (hk : 0 < k) :
    ∀ (n : Nat) (l : List α), l.length ≤ n →
      (List.range ((l.length + k - 1) / k)).flatMap
          (fun i => (l.drop (i * k)).take k) = l := by
  intro n
  induction n with
  | zero =>
      intro l hl
      have hnil : l = [] := List.eq_nil_of_length_eq_zero (Nat.le_zero.mp hl)
      subst hnil
      simp [Nat.div_eq_of_lt (Nat.sub_lt hk Nat.one_pos)]
  | succ n ih =>
      intro l hl
      by_cases hnil : l = []
      · subst hnil
        simp [Nat.div_eq_of_lt (Nat.sub_lt hk Nat.one_pos)]
      · have hpos : 0 < l.length := List.length_pos.mpr hnil
        have hq : (l.length + k - 1) / k = (l.length - 1) / k + 1 := by
          have h1 : l.length + k - 1 = (l.length - 1) + k := by omega
          rw [h1, Nat.add_div_right _ hk]
        have hq2 : ((l.drop k).length + k - 1) / k = (l.length - 1) / k := by
          rw [List.length_drop]
          by_cases hlk : l.length ≤ k
          · have h0 : l.length - k = 0 := by omega
            rw [h0]
            rw [Nat.div_eq_of_lt (by omega)]
            symm
            exact Nat.div_eq_of_lt (by omega)
          · congr 1
            omega
        rw [hq, List.range_succ_eq_map, List.flatMap_cons, List.flatMap_map]
        have hfun : (fun i => (l.drop (Nat.succ i * k)).take k : Nat → List α) =
            fun i => ((l.drop k).drop (i * k)).take k := by
          funext i
          rw [List.drop_drop]
          congr 2
          rw [Nat.succ_mul]
          omega
        rw [hfun]
        have hlen : (l.drop k).length ≤ n := by
          rw [List.length_drop]
          omega
        have hih := ih (l.drop k) hlen
        rw [hq2] at hih
        rw [hih]
        simp only [Nat.zero_mul, List.drop_zero]
        exact List.take_append_drop k l

/-- Slicing with natural-number endpoints is drop-then-take. -/
theorem jsSlice_natCast {α : Type} (l : List α) (a b : Nat) :
    jsSlice l (a : Int) (b : Int) = (l.drop a).take (b - a) := by
  simp only [jsSlice, jsIndex]
  have ha : ¬((a : Int) < 0) := not_lt.mpr (Int.natCast_nonneg a)
  have hb : ¬((b : Int) < 0) := not_lt.mpr (Int.natCast_nonneg b)
  rw [if_neg ha, if_neg hb]
  have hta : ((a : Int)).toNat = a := rfl
  have htb : ((b : Int)).toNat = b := rfl
  rw [hta, htb]
  by_cases hal : a ≤ l.length
  · rw [min_eq_left hal]
    by_cases hbl : b ≤ l.length
    · rw [min_eq_left hbl]
    · rw [min_eq_right (le_of_not_le hbl)]
      have hlen : (l.drop a).length = l.length - a := List.length_drop a l
      rw [List.take_of_length_le (by rw [hlen]),
        List.take_of_length_le (by rw [hlen]; omega)]
  · rw [min_eq_right (le_of_not_le hal)]
    have h1 : l.drop l.length = [] := List.drop_eq_nil_of_le le_rfl
    have h2 : l.drop a = [] := List.drop_eq_nil_of_le (by omega)
    rw [h1, h2]
    simp

/-- The ceiling quotient `(t + k - 1) / k` is exactly the page count: `k`
pages of it cover `t` and one page fewer does not overshoot by `k`. -/
theorem ceil_bounds (t k : Nat) (hk : 0 < k) :
    t ≤ ((t + k - 1) / k) * k ∧ ((t + k - 1) / k) * k < t + k := by
  rcases Nat.eq_zero_or_pos t with ht | ht
  · subst ht
    constructor
    · simp
    · rw [Nat.div_eq_of_lt (by omega)]
      omega
  · have hq : (t + k - 1) / k = (t - 1) / k + 1 := by
      have h1 : t + k - 1 = (t - 1) + k := by omega
      rw [h1, Nat.add_div_right _ hk]
    rw [hq]
    constructor
    · have hlt : t - 1 < ((t - 1) / k + 1) * k :=
        (Nat.div_lt_iff_lt_mul hk).mp (Nat.lt_succ_self _)
      omega
    · have hle : ((t - 1) / k) * k ≤ t - 1 := Nat.div_mul_le_self _ _
      have hd : ((t - 1) / k + 1) * k = ((t - 1) / k) * k + k := by ring
      omega

/-- Sorting never changes the number of results. -/
theorem advSorted_length (q : Str) (f : Filters) (snap : List Service) :
    (advSorted q f snap).length = (advFiltered q f snap).length := by
  unfold advSorted
  dsimp only
  split
  · exact (jsSortStable_perm _ _).length_eq
  · split
    · exact (jsSortStable_perm _ _).length_eq
    · split
      · exact (jsSortStable_perm _ _).length_eq
      · rfl

/-- C7: for every query, filter set and positive limit, concatenating the
`results` of pages 1..totalPages at that limit rebuilds exactly the full
filtered-and-sorted result list (hence no duplicates and no omissions),
`total` is the number of filtered and matched records before pagination, and
`totalPages` is the ceiling of total/limit (characterized by the two
inequalities `total ≤ totalPages * limit < total + limit`). -/
theorem advancedSearch_pagination (q : Str) (f : Filters) (snap : List Service)
    (lim : Nat) (hl : advLimit f = (lim : Int)) (hpos : 0 < lim) :
    (List.range ((advancedSearch q f snap).totalPages)).flatMap
        (fun i => (advancedSearch q { f with page := some ((i : Int) + 1) } snap).results)
      = advSorted q f snap
    ∧ (advancedSearch q f snap).total = (advFiltered q f snap).length
    ∧ (advFiltered q f snap).length ≤ (advancedSearch q f snap).totalPages * lim
    ∧ (advancedSearch q f snap).totalPages * lim < (advFiltered q f snap).length + lim := by
  have htp : (advancedSearch q f snap).totalPages =
      ((advSorted q f snap).length + lim - 1) / lim := by
    show advTotalPages (advSorted q f snap).length (advLimit f) = _
    rw [hl]
    unfold advTotalPages
    rw [if_neg (by omega)]
    rfl
  have hres : ∀ i : Nat,
      (advancedSearch q { f with page := some ((i : Int) + 1) } snap).results
        = ((advSorted q f snap).drop (i * lim)).take lim := by
    intro i
    show jsSlice (advSorted q f snap)
        ((((i : Int) + 1) - 1) * advLimit f) ((((i : Int) + 1) - 1) * advLimit f + advLimit f) = _
    rw [hl]
    have h1 : (((i : Int) + 1) - 1) * (lim : Int) = ((i * lim : Nat) : Int) := by
      push_cast
      ring
    have h2 : ((i * lim : Nat) : Int) + (lim : Int) = ((i * lim + lim : Nat) : Int) := by
      push_cast
      ring
    rw [h1, h2, jsSlice_natCast]
    congr 1
    omega
  refine ⟨?_, ?_, ?_, ?_⟩
  · rw [htp]
    have hfe : (fun i : Nat =>
        (advancedSearch q { f with page := some ((i : Int) + 1) } snap).results) =
        fun i : Nat => ((advSorted q f snap).drop (i * lim)).take lim := funext hres
    rw [hfe]
    exact pages_reconstruct lim hpos (advSorted q f snap).length _ le_rfl
  · show (advSorted q f snap).length = _
    exact advSorted_length q f snap
  · rw [htp, advSorted_length]
    exact (ceil_bounds _ lim hpos).1
  · rw [htp, advSorted_length]
    exact (ceil_bounds _ lim hpos).2

/-- Witness for C7 at a concrete query, filter set, limit and snapshot. -/
theorem advancedSearch_pagination_witness :
    advLimit { limit := some (2 : Int) } = ((2 : Nat) : Int) ∧ 0 < 2 ∧
    (advancedSearch (str "") { limit := some (2 : Int) } [svcC2a, svcC2b]).total
      = (advFiltered (str "") { limit := some (2 : Int) } [svcC2a, svcC2b]).length :=
  ⟨rfl, by decide,
    (advancedSearch_pagination (str "") { limit := some (2 : Int) }
      [svcC2a, svcC2b] 2 rfl (by decide)).2.1⟩

/-- C8: when the `page` and `limit` query parameters are present but
non-numeric (`parseInt` yields `NaN`), the advanced-search pipeline does not
fail: the route handler defaults them to `page = 1` and `limit = 12`, and the
result is the normal result page computed under those defaults. -/
theorem advancedSearch_malformed_pagination_defaults (p : AdvParams) (ps ls : Str)
    (hp : p.page = some ps) (hp2 : ps ≠ []) (hpn : jsParseInt ps = none)
    (hl : p.limit = some ls) (hl2 : ls ≠ []) (hln : jsParseInt ls = none) :
    (routeAdvancedFilters p).page = some 1 ∧
    (routeAdvancedFilters p).limit = some 12 ∧
    ∀ (q : Str) (snap : List Service),
      advancedSearch q (routeAdvancedFilters p) snap =
        advancedSearch q
          { routeAdvancedFilters p with page := some 1, limit := some 12 } snap := by
  have h1 : (routeAdvancedFilters p).page = some 1 := by
    simp [routeAdvancedFilters, hp, optTruthy, hp2, routeParseIntOr, hpn]
  have h2 : (routeAdvancedFilters p).limit = some 12 := by
    simp [routeAdvancedFilters, hl, optTruthy, hl2, routeParseIntOr, hln]
  have heq : { routeAdvancedFilters p with page := some 1, limit := some 12 }
      = routeAdvancedFilters p := by
    rcases hF : routeAdvancedFilters p with ⟨c, ci, st, av, so, pg, li⟩
    rw [hF] at h1 h2
    simp at h1 h2
    simp [h1, h2]
  refine ⟨h1, h2, ?_⟩
  intro q snap
  rw [heq]

/-- Witness for C8 at the non-numeric parameters "abc" and "xyz". -/
theorem advancedSearch_malformed_pagination_defaults_witness :
    jsParseInt (str "abc") = none ∧ jsParseInt (str "xyz") = none ∧
    (routeAdvancedFilters { page := some (str "abc"), limit := some (str "xyz") }).page
      = some 1 ∧
    (routeAdvancedFilters { page := some (str "abc"), limit := some (str "xyz") }).limit
      = some 12 :=
  (fun h => ⟨by decide, by decide, h.1, h.2.1⟩)
    (advancedSearch_malformed_pagination_defaults
      { page := some (str "abc"), limit := some (str "xyz") }
      (str "abc") (str "xyz") rfl (by decide) (by decide) rfl (by decide) (by decide))

/-- Record with `available = 0` for the C10 witness. -/
def svcC10a : Service := { svcC2a with id := 3, available := 0 }

/-- Record with `available = 1` for the C10 witness. -/
def svcC10b : Service := { svcC2a with id := 4 }

/-- C10: with `available` explicitly set to `false` in the filters,
`advancedSearch` applies no availability constraint at all: its candidate
set is the snapshot filtered only by the county, city and service-type
filters, so records with `available = 0` and with `available = 1` are both
eligible, and no mode restricts the results to unavailable records only. -/
theorem advancedSearch_available_false_no_constraint (f : Filters)
    (hav : f.available = some false) (snap : List Service) :
    advBase f snap =
      snap.filter (fun s => passesCounty f s && passesCity f s && passesType f s) := by
  have h : advAvailable f = false := by simp [advAvailable, hav]
  unfold advBase
  simp [h]

/-- Witness for C10: with `available = false`, a snapshot holding one
unavailable and one available record keeps both in the candidate set. -/
theorem advancedSearch_available_false_no_constraint_witness :
    ({ available := some false } : Filters).available = some false ∧
    advBase { available := some false } [svcC10a, svcC10b] =
      ([svcC10a, svcC10b]).filter
        (fun s => passesCounty { available := some false } s &&
          passesCity { available := some false } s &&
          passesType { available := some false } s) ∧
    svcC10a ∈ advBase { available := some false } [svcC10a, svcC10b] ∧
    svcC10b ∈ advBase { available := some false } [svcC10a, svcC10b] ∧
    svcC10a.available = 0 ∧ svcC10b.available = 1 :=
  ⟨rfl,
    advancedSearch_available_false_no_constraint { available := some false } rfl
      [svcC10a, svcC10b],
    by decide, by decide, by decide, by decide⟩
